import Mathlib

/-!
# Verification of the Mondrian synchronized deterministic composition core

Shallow embedding of the repository's TypeScript core:

* `shared/seededRandom.ts` — the LCG-based `SeededRandom` class (state is a
  natural number; `next` both steps the state and reports the new state
  divided by the modulus).
* the shared Mondrian generation module (`generateBlocks`, `drawComposition`):
  JS numbers are embedded as rationals, `Math.floor` as `Int.floor`, and the
  mutable RNG object as explicit state threading in call order.
* `docs/dist/bundle.js` — the broadcast server's `/health` handler and
  `generateAndBroadcast` tick (ambient `Math.random()` / `Date.now()` values
  are passed as explicit arguments).
* `src/web/socket.ts` — the client's clock-offset update on a `sync` event.

The recursion of `generateBlocks` is embedded structurally on the fuel
`maxDepth - depth`; the wrapper re-establishes the source's signature.
-/

namespace Mondrian

/-! ## Seeded sequence generator (`shared/seededRandom.ts`) -/

/-- The LCG modulus from `SeededRandom`. -/
def lcgModulus : Nat := 233280

/-- One LCG step: `seed = (seed * 9301 + 49297) % 233280`. -/
def stepSeed (s : Nat) : Nat := (s * 9301 + 49297) % lcgModulus

/-- The value returned by `next()` from state `s`: the class first steps the
seed and then returns `seed / 233280`. -/
def nextVal (s : Nat) : ℚ := (stepSeed s : ℚ) / (lcgModulus : ℚ)

/-- Constructor normalization: `seed = seed % 233280; if (seed <= 0) seed += 233280`.
JS `%` truncates toward zero, which is `Int.tmod`. -/
def mkSeededRandom (seed : ℤ) : Nat :=
  (if Int.tmod seed 233280 ≤ 0 then Int.tmod seed 233280 + 233280 else Int.tmod seed 233280).toNat

/-- One call of the public `SeededRandom` interface. -/
inductive RngCall : Type
  | next : RngCall
  | nextInt (min max : ℤ) : RngCall
  | nextFloat (min max : ℚ) : RngCall
deriving DecidableEq, Repr

/-- Run one call from state `s`: the returned value together with the state
after the call.  `nextInt(min,max) = Math.floor(next() * (max - min + 1)) + min`,
`nextFloat(min,max) = next() * (max - min) + min`. -/
def runCall (c : RngCall) (s : Nat) : ℚ × Nat :=
  match c with
  | .next => (nextVal s, stepSeed s)
  | .nextInt mi ma => (((⌊nextVal s * ((ma : ℚ) - (mi : ℚ) + 1)⌋ + mi : ℤ) : ℚ), stepSeed s)
  | .nextFloat mi ma => (nextVal s * (ma - mi) + mi, stepSeed s)

/-- Run an ordered sequence of calls from state `s`, collecting the outputs in
call order and the final state. -/
def runCalls (cs : List RngCall) (s : Nat) : List ℚ × Nat :=
  match cs with
  | [] => ([], s)
  | c :: rest =>
      let r := runCall c s
      let t := runCalls rest r.2
      (r.1 :: t.1, t.2)

/-- C1: two independently constructed `SeededRandom` instances with the same
seed `S`, driven by the same ordered sequence of `next`/`nextInt`/`nextFloat`
calls, produce identical outputs at every call (and end in identical states). -/
theorem seededRandom_deterministic (S : ℤ) (g1 g2 : Nat)
    (h1 : g1 = mkSeededRandom S) (h2 : g2 = mkSeededRandom S)
    (calls : List RngCall) :
    runCalls calls g1 = runCalls calls g2 := by
  subst h1; subst h2; rfl

/-- Witness for C1 at seed `42` and a concrete three-call sequence. -/
theorem seededRandom_deterministic_witness :
    runCalls [RngCall.next, RngCall.nextInt 1 6, RngCall.nextFloat 0 1]
        (mkSeededRandom 42) =
      runCalls [RngCall.next, RngCall.nextInt 1 6, RngCall.nextFloat 0 1]
        (mkSeededRandom 42) :=
  seededRandom_deterministic 42 (mkSeededRandom 42) (mkSeededRandom 42) rfl rfl
    [RngCall.next, RngCall.nextInt 1 6, RngCall.nextFloat 0 1]

/-! ## Recursive spatial partitioner (shared Mondrian generation module) -/

/-- A block `{x, y, width, height}`; JS numbers embedded as rationals. -/
structure Block : Type where
  x : ℚ
  y : ℚ
  width : ℚ
  height : ℚ
deriving DecidableEq, Repr

/-- The constant `MIN_BLOCK_SIZE = 150` from the shared generation module. -/
def MIN_BLOCK_SIZE : ℚ := 150

/-- Structural worker for `generateBlocks`, recursing on the fuel
`maxDepth - depth` (zero fuel is exactly the source's `depth >= maxDepth`
terminal).  State threading follows the source's call order: the probabilistic
stop check draws once whenever the small-block disjunct is false (JS `||`
short-circuits, and `rng.next()` is the left operand of the `&&`), then the
chosen split branch draws once for the split point before recursing into the
earlier sub-block and then the later one. -/
def generateBlocksGo : Nat → Block → Nat → Nat → List Block × Nat
  | 0, block, _, s => ([block], s)
  | fuel + 1, block, depth, s =>
    if block.width < MIN_BLOCK_SIZE ∧ block.height < MIN_BLOCK_SIZE then
      ([block], s)
    else if nextVal s < 1/5 ∧ depth > 0 then
      ([block], stepSeed s)
    else
      let s1 := stepSeed s
      if block.height > block.width ∧ block.height > MIN_BLOCK_SIZE then
        let splitPoint : ℤ := ⌊block.y + block.height * (nextVal s1 * (2/5) + 3/10)⌋
        let blockA : Block := ⟨block.x, block.y, block.width, (splitPoint : ℚ) - block.y⟩
        let blockB : Block :=
          ⟨block.x, (splitPoint : ℚ), block.width, block.y + block.height - (splitPoint : ℚ)⟩
        let r1 := generateBlocksGo fuel blockA (depth + 1) (stepSeed s1)
        let r2 := generateBlocksGo fuel blockB (depth + 1) r1.2
        (r1.1 ++ r2.1, r2.2)
      else if block.width > block.height ∧ block.width > MIN_BLOCK_SIZE then
        let splitPoint : ℤ := ⌊block.x + block.width * (nextVal s1 * (2/5) + 3/10)⌋
        let blockA : Block := ⟨block.x, block.y, (splitPoint : ℚ) - block.x, block.height⟩
        let blockB : Block :=
          ⟨(splitPoint : ℚ), block.y, block.x + block.width - (splitPoint : ℚ), block.height⟩
        let r1 := generateBlocksGo fuel blockA (depth + 1) (stepSeed s1)
        let r2 := generateBlocksGo fuel blockB (depth + 1) r1.2
        (r1.1 ++ r2.1, r2.2)
      else
        ([block], s1)

/-- The function `generateBlocks(block, depth, maxDepth, rng)`: the returned block list
together with the RNG state after the call. -/
def generateBlocks (block : Block) (depth maxDepth : Nat) (s : Nat) : List Block × Nat :=
  generateBlocksGo (maxDepth - depth) block depth s

/-- The split portion of `generateBlocks` (everything after the two terminal
checks), as a standalone function of the post-stop-check RNG state. -/
def splitStep (block : Block) (depth maxDepth : Nat) (s1 : Nat) : List Block × Nat :=
  if block.height > block.width ∧ block.height > MIN_BLOCK_SIZE then
    let splitPoint : ℤ := ⌊block.y + block.height * (nextVal s1 * (2/5) + 3/10)⌋
    let blockA : Block := ⟨block.x, block.y, block.width, (splitPoint : ℚ) - block.y⟩
    let blockB : Block :=
      ⟨block.x, (splitPoint : ℚ), block.width, block.y + block.height - (splitPoint : ℚ)⟩
    let r1 := generateBlocks blockA (depth + 1) maxDepth (stepSeed s1)
    let r2 := generateBlocks blockB (depth + 1) maxDepth r1.2
    (r1.1 ++ r2.1, r2.2)
  else if block.width > block.height ∧ block.width > MIN_BLOCK_SIZE then
    let splitPoint : ℤ := ⌊block.x + block.width * (nextVal s1 * (2/5) + 3/10)⌋
    let blockA : Block := ⟨block.x, block.y, (splitPoint : ℚ) - block.x, block.height⟩
    let blockB : Block :=
      ⟨(splitPoint : ℚ), block.y, block.x + block.width - (splitPoint : ℚ), block.height⟩
    let r1 := generateBlocks blockA (depth + 1) maxDepth (stepSeed s1)
    let r2 := generateBlocks blockB (depth + 1) maxDepth r1.2
    (r1.1 ++ r2.1, r2.2)
  else
    ([block], s1)

/-! ## Geometry: point sets of blocks -/

/-- The half-open point set of a block: `[x, x+width) × [y, y+height)`. -/
def Block.pts (b : Block) : Set (ℚ × ℚ) :=
  {p | b.x ≤ p.1 ∧ p.1 < b.x + b.width ∧ b.y ≤ p.2 ∧ p.2 < b.y + b.height}

theorem nextVal_nonneg (s : Nat) : 0 ≤ nextVal s := by
  unfold nextVal
  positivity

theorem nextVal_lt_one (s : Nat) : nextVal s < 1 := by
  unfold nextVal stepSeed lcgModulus
  rw [div_lt_one (by norm_num)]
  exact_mod_cast Nat.mod_lt _ (by norm_num)

/-- The split point `⌊o + e * (r*0.4 + 0.3)⌋` lies inside `[o, o + e]` whenever
the split extent exceeds the minimum block size and `r ∈ [0, 1)`. -/
theorem splitPoint_bounds (o e r : ℚ) (he : MIN_BLOCK_SIZE < e) (hr0 : 0 ≤ r) (hr1 : r < 1) :
    o ≤ (⌊o + e * (r * (2/5) + 3/10)⌋ : ℚ) ∧ (⌊o + e * (r * (2/5) + 3/10)⌋ : ℚ) ≤ o + e := by
  rw [MIN_BLOCK_SIZE] at he
  have hc1 : (45 : ℚ) ≤ e * (r * (2/5) + 3/10) := by nlinarith
  have hc2 : e * (r * (2/5) + 3/10) ≤ e := by nlinarith
  refine ⟨?_, ?_⟩
  · have hfl := Int.sub_one_lt_floor (o + e * (r * (2/5) + 3/10))
    linarith
  · have hfl := Int.floor_le (o + e * (r * (2/5) + 3/10))
    linarith

/-- A horizontal split at `sp ∈ [y, y+h]` tiles the block exactly. -/
theorem pts_union_horiz (x y w h sp : ℚ) (h1 : y ≤ sp) (h2 : sp ≤ y + h) :
    Block.pts ⟨x, y, w, sp - y⟩ ∪ Block.pts ⟨x, sp, w, y + h - sp⟩ = Block.pts ⟨x, y, w, h⟩ := by
  ext p
  simp only [Block.pts, Set.mem_union, Set.mem_setOf_eq]
  constructor
  · rintro (⟨ha, hb, hc, hd⟩ | ⟨ha, hb, hc, hd⟩) <;> exact ⟨ha, hb, by linarith, by linarith⟩
  · rintro ⟨ha, hb, hc, hd⟩
    by_cases hsp : p.2 < sp
    · exact Or.inl ⟨ha, hb, hc, by linarith⟩
    · exact Or.inr ⟨ha, hb, by linarith, by linarith⟩

/-- The two halves of a horizontal split are disjoint. -/
theorem pts_disj_horiz (x y w h sp : ℚ) :
    Block.pts ⟨x, y, w, sp - y⟩ ∩ Block.pts ⟨x, sp, w, y + h - sp⟩ = ∅ := by
  ext p
  simp only [Block.pts, Set.mem_inter_iff, Set.mem_setOf_eq, Set.mem_empty_iff_false, iff_false]
  rintro ⟨⟨_, _, _, hd⟩, ⟨_, _, hc, _⟩⟩
  linarith

/-- A vertical split at `sp ∈ [x, x+w]` tiles the block exactly. -/
theorem pts_union_vert (x y w h sp : ℚ) (h1 : x ≤ sp) (h2 : sp ≤ x + w) :
    Block.pts ⟨x, y, sp - x, h⟩ ∪ Block.pts ⟨sp, y, x + w - sp, h⟩ = Block.pts ⟨x, y, w, h⟩ := by
  ext p
  simp only [Block.pts, Set.mem_union, Set.mem_setOf_eq]
  constructor
  · rintro (⟨ha, hb, hc, hd⟩ | ⟨ha, hb, hc, hd⟩)
    · exact ⟨ha, by linarith, hc, hd⟩
    · exact ⟨by linarith, by linarith, hc, hd⟩
  · rintro ⟨ha, hb, hc, hd⟩
    by_cases hsp : p.1 < sp
    · exact Or.inl ⟨ha, by linarith, hc, hd⟩
    · exact Or.inr ⟨by linarith, by linarith, hc, hd⟩

/-- The two halves of a vertical split are disjoint. -/
theorem pts_disj_vert (x y w h sp : ℚ) :
    Block.pts ⟨x, y, sp - x, h⟩ ∩ Block.pts ⟨sp, y, x + w - sp, h⟩ = ∅ := by
  ext p
  simp only [Block.pts, Set.mem_inter_iff, Set.mem_setOf_eq, Set.mem_empty_iff_false, iff_false]
  rintro ⟨⟨_, hb, _, _⟩, ⟨hc, _, _, _⟩⟩
  linarith

theorem pts_biUnion_append (l1 l2 : List Block) :
    (⋃ c ∈ l1 ++ l2, Block.pts c) = (⋃ c ∈ l1, Block.pts c) ∪ (⋃ c ∈ l2, Block.pts c) := by
  ext p
  simp only [Set.mem_iUnion, Set.mem_union, List.mem_append, exists_prop]
  constructor
  · rintro ⟨c, hc | hc, hp⟩
    · exact Or.inl ⟨c, hc, hp⟩
    · exact Or.inr ⟨c, hc, hp⟩
  · rintro (⟨c, hc, hp⟩ | ⟨c, hc, hp⟩)
    · exact ⟨c, Or.inl hc, hp⟩
    · exact ⟨c, Or.inr hc, hp⟩

/-- Gluing step: if two sub-blocks partition `b` and two lists tile them, the
concatenated list tiles `b`. -/
theorem tiling_glue (b bA bB : Block) (l1 l2 : List Block)
    (hun : Block.pts bA ∪ Block.pts bB = Block.pts b)
    (hdisj : Block.pts bA ∩ Block.pts bB = ∅)
    (hU1 : (⋃ c ∈ l1, Block.pts c) = Block.pts bA)
    (hU2 : (⋃ c ∈ l2, Block.pts c) = Block.pts bB)
    (hP1 : List.Pairwise (fun a c => Block.pts a ∩ Block.pts c = ∅) l1)
    (hP2 : List.Pairwise (fun a c => Block.pts a ∩ Block.pts c = ∅) l2) :
    (⋃ c ∈ l1 ++ l2, Block.pts c) = Block.pts b ∧
    List.Pairwise (fun a c => Block.pts a ∩ Block.pts c = ∅) (l1 ++ l2) := by
  constructor
  · rw [pts_biUnion_append, hU1, hU2, hun]
  · refine List.pairwise_append.mpr ⟨hP1, hP2, ?_⟩
    intro a ha c hc
    have hA : Block.pts a ⊆ Block.pts bA := by
      rw [← hU1]
      intro q hq
      simp only [Set.mem_iUnion, exists_prop]
      exact ⟨a, ha, hq⟩
    have hB : Block.pts c ⊆ Block.pts bB := by
      rw [← hU2]
      intro q hq
      simp only [Set.mem_iUnion, exists_prop]
      exact ⟨c, hc, hq⟩
    rw [← Set.subset_empty_iff]
    intro p hp
    rw [← hdisj]
    exact ⟨hA hp.1, hB hp.2⟩

theorem generateBlocksGo_tiling (fuel : Nat) :
    ∀ (b : Block) (depth s : Nat),
      (⋃ c ∈ (generateBlocksGo fuel b depth s).1, Block.pts c) = Block.pts b ∧
      List.Pairwise (fun a c => Block.pts a ∩ Block.pts c = ∅)
        (generateBlocksGo fuel b depth s).1 := by
  induction fuel with
  | zero =>
    intro b depth s
    refine ⟨?_, ?_⟩ <;> simp [generateBlocksGo]
  | succ fuel ih =>
    intro b depth s
    simp only [generateBlocksGo]
    split_ifs with h1 h2 h3 h4
    · refine ⟨?_, ?_⟩ <;> simp
    · refine ⟨?_, ?_⟩ <;> simp
    · -- horizontal split
      set r := nextVal (stepSeed s) with hr
      set sp : ℚ := ((⌊b.y + b.height * (r * (2/5) + 3/10)⌋ : ℤ) : ℚ) with hspdef
      obtain ⟨hsp1, hsp2⟩ := splitPoint_bounds b.y b.height r h3.2 (nextVal_nonneg _)
        (nextVal_lt_one _)
      rw [← hspdef] at hsp1 hsp2
      obtain ⟨hU1, hP1⟩ := ih ⟨b.x, b.y, b.width, sp - b.y⟩ (depth + 1) (stepSeed (stepSeed s))
      obtain ⟨hU2, hP2⟩ := ih ⟨b.x, sp, b.width, b.y + b.height - sp⟩ (depth + 1)
        (generateBlocksGo fuel ⟨b.x, b.y, b.width, sp - b.y⟩ (depth + 1)
          (stepSeed (stepSeed s))).2
      exact tiling_glue b _ _ _ _
        (pts_union_horiz b.x b.y b.width b.height sp hsp1 hsp2)
        (pts_disj_horiz b.x b.y b.width b.height sp) hU1 hU2 hP1 hP2
    · -- vertical split
      set r := nextVal (stepSeed s) with hr
      set sp : ℚ := ((⌊b.x + b.width * (r * (2/5) + 3/10)⌋ : ℤ) : ℚ) with hspdef
      obtain ⟨hsp1, hsp2⟩ := splitPoint_bounds b.x b.width r h4.2 (nextVal_nonneg _)
        (nextVal_lt_one _)
      rw [← hspdef] at hsp1 hsp2
      obtain ⟨hU1, hP1⟩ := ih ⟨b.x, b.y, sp - b.x, b.height⟩ (depth + 1) (stepSeed (stepSeed s))
      obtain ⟨hU2, hP2⟩ := ih ⟨sp, b.y, b.x + b.width - sp, b.height⟩ (depth + 1)
        (generateBlocksGo fuel ⟨b.x, b.y, sp - b.x, b.height⟩ (depth + 1)
          (stepSeed (stepSeed s))).2
      exact tiling_glue b _ _ _ _
        (pts_union_vert b.x b.y b.width b.height sp hsp1 hsp2)
        (pts_disj_vert b.x b.y b.width b.height sp) hU1 hU2 hP1 hP2
    · refine ⟨?_, ?_⟩ <;> simp

/-- C3: for every rectangle, depth, maxDepth and RNG state, the blocks returned
by `generateBlocks` exactly tile the input rectangle: their half-open point
sets are pairwise disjoint and their union equals the rectangle's point set. -/
theorem generateBlocks_tiling (b : Block) (depth maxDepth s : Nat) :
    (⋃ c ∈ (generateBlocks b depth maxDepth s).1, Block.pts c) = Block.pts b ∧
    List.Pairwise (fun a c => Block.pts a ∩ Block.pts c = ∅)
      (generateBlocks b depth maxDepth s).1 :=
  generateBlocksGo_tiling (maxDepth - depth) b depth s

/-! ## Depth accounting for the partitioner -/

/-- Variant of `generateBlocksGo` instrumented to record, for every emitted block, the
depth at which it was emitted (the number of splits it went through from the
root call at depth 0). -/
def generateBlocksDGo : Nat → Block → Nat → Nat → List (Block × Nat) × Nat
  | 0, block, depth, s => ([(block, depth)], s)
  | fuel + 1, block, depth, s =>
    if block.width < MIN_BLOCK_SIZE ∧ block.height < MIN_BLOCK_SIZE then
      ([(block, depth)], s)
    else if nextVal s < 1/5 ∧ depth > 0 then
      ([(block, depth)], stepSeed s)
    else
      let s1 := stepSeed s
      if block.height > block.width ∧ block.height > MIN_BLOCK_SIZE then
        let splitPoint : ℤ := ⌊block.y + block.height * (nextVal s1 * (2/5) + 3/10)⌋
        let blockA : Block := ⟨block.x, block.y, block.width, (splitPoint : ℚ) - block.y⟩
        let blockB : Block :=
          ⟨block.x, (splitPoint : ℚ), block.width, block.y + block.height - (splitPoint : ℚ)⟩
        let r1 := generateBlocksDGo fuel blockA (depth + 1) (stepSeed s1)
        let r2 := generateBlocksDGo fuel blockB (depth + 1) r1.2
        (r1.1 ++ r2.1, r2.2)
      else if block.width > block.height ∧ block.width > MIN_BLOCK_SIZE then
        let splitPoint : ℤ := ⌊block.x + block.width * (nextVal s1 * (2/5) + 3/10)⌋
        let blockA : Block := ⟨block.x, block.y, (splitPoint : ℚ) - block.x, block.height⟩
        let blockB : Block :=
          ⟨(splitPoint : ℚ), block.y, block.x + block.width - (splitPoint : ℚ), block.height⟩
        let r1 := generateBlocksDGo fuel blockA (depth + 1) (stepSeed s1)
        let r2 := generateBlocksDGo fuel blockB (depth + 1) r1.2
        (r1.1 ++ r2.1, r2.2)
      else
        ([(block, depth)], s1)

/-- Depth-instrumented `generateBlocks`. -/
def generateBlocksD (block : Block) (depth maxDepth : Nat) (s : Nat) :
    List (Block × Nat) × Nat :=
  generateBlocksDGo (maxDepth - depth) block depth s

/-- Erasing the depth annotations recovers `generateBlocksGo` exactly. -/
theorem generateBlocksDGo_erase (fuel : Nat) :
    ∀ (b : Block) (depth s : Nat),
      (generateBlocksDGo fuel b depth s).1.map Prod.fst =
          (generateBlocksGo fuel b depth s).1 ∧
        (generateBlocksDGo fuel b depth s).2 = (generateBlocksGo fuel b depth s).2 := by
  induction fuel with
  | zero =>
    intro b depth s
    simp [generateBlocksDGo, generateBlocksGo]
  | succ fuel ih =>
    intro b depth s
    simp only [generateBlocksDGo, generateBlocksGo]
    split_ifs with h1 h2 h3 h4
    · simp
    · simp
    · obtain ⟨hm1, hs1⟩ := ih ⟨b.x, b.y, b.width,
        ((⌊b.y + b.height * (nextVal (stepSeed s) * (2/5) + 3/10)⌋ : ℤ) : ℚ) - b.y⟩
        (depth + 1) (stepSeed (stepSeed s))
      rw [hs1]
      obtain ⟨hm2, hs2⟩ := ih ⟨b.x,
        ((⌊b.y + b.height * (nextVal (stepSeed s) * (2/5) + 3/10)⌋ : ℤ) : ℚ), b.width,
        b.y + b.height - ((⌊b.y + b.height * (nextVal (stepSeed s) * (2/5) + 3/10)⌋ : ℤ) : ℚ)⟩
        (depth + 1)
        (generateBlocksGo fuel ⟨b.x, b.y, b.width,
          ((⌊b.y + b.height * (nextVal (stepSeed s) * (2/5) + 3/10)⌋ : ℤ) : ℚ) - b.y⟩
          (depth + 1) (stepSeed (stepSeed s))).2
      simp [List.map_append, hm1, hm2, hs2]
    · obtain ⟨hm1, hs1⟩ := ih ⟨b.x, b.y,
        ((⌊b.x + b.width * (nextVal (stepSeed s) * (2/5) + 3/10)⌋ : ℤ) : ℚ) - b.x, b.height⟩
        (depth + 1) (stepSeed (stepSeed s))
      rw [hs1]
      obtain ⟨hm2, hs2⟩ := ih ⟨((⌊b.x + b.width * (nextVal (stepSeed s) * (2/5) + 3/10)⌋ : ℤ) : ℚ),
        b.y, b.x + b.width - ((⌊b.x + b.width * (nextVal (stepSeed s) * (2/5) + 3/10)⌋ : ℤ) : ℚ),
        b.height⟩ (depth + 1)
        (generateBlocksGo fuel ⟨b.x, b.y,
          ((⌊b.x + b.width * (nextVal (stepSeed s) * (2/5) + 3/10)⌋ : ℤ) : ℚ) - b.x, b.height⟩
          (depth + 1) (stepSeed (stepSeed s))).2
      simp [List.map_append, hm1, hm2, hs2]
    · simp

/-- Every emitted depth lies between the call's depth and `depth + fuel`. -/
theorem generateBlocksDGo_depth_le (fuel : Nat) :
    ∀ (b : Block) (depth s : Nat) (p : Block × Nat),
      p ∈ (generateBlocksDGo fuel b depth s).1 → depth ≤ p.2 ∧ p.2 ≤ depth + fuel := by
  induction fuel with
  | zero =>
    intro b depth s p hp
    simp only [generateBlocksDGo, List.mem_singleton] at hp
    subst hp
    omega
  | succ fuel ih =>
    intro b depth s p hp
    simp only [generateBlocksDGo] at hp
    split_ifs at hp with h1 h2 h3 h4
    · simp only [List.mem_singleton] at hp
      subst hp
      omega
    · simp only [List.mem_singleton] at hp
      subst hp
      omega
    · simp only [List.mem_append] at hp
      rcases hp with hp | hp
      · have := ih _ _ _ _ hp
        omega
      · have := ih _ _ _ _ hp
        omega
    · simp only [List.mem_append] at hp
      rcases hp with hp | hp
      · have := ih _ _ _ _ hp
        omega
      · have := ih _ _ _ _ hp
        omega
    · simp only [List.mem_singleton] at hp
      subst hp
      omega

/-- C9: the recursion of `generateBlocks` is bounded: the depth-instrumented
run agrees with `generateBlocks` (so the function is total and well-defined on
all inputs), and every emitted block has gone through at most
`maxDepth - depth` further subdivisions from the call at `depth`. -/
theorem generateBlocks_depth_bound (b : Block) (depth maxDepth s : Nat) :
    ((generateBlocksD b depth maxDepth s).1.map Prod.fst =
        (generateBlocks b depth maxDepth s).1 ∧
      (generateBlocksD b depth maxDepth s).2 = (generateBlocks b depth maxDepth s).2) ∧
    ∀ p ∈ (generateBlocksD b depth maxDepth s).1, p.2 - depth ≤ maxDepth - depth := by
  refine ⟨generateBlocksDGo_erase (maxDepth - depth) b depth s, ?_⟩
  intro p hp
  have := generateBlocksDGo_depth_le (maxDepth - depth) b depth s p hp
  omega

/-- Witness for C9 at a concrete input: the root block itself, emitted at
depth `0` by a `maxDepth = 0` run, has gone through `0 ≤ 0 - 0` splits. -/
theorem generateBlocks_depth_bound_witness :
    ((⟨0, 0, 800, 600⟩, 0) : Block × Nat).2 - 0 ≤ 0 - 0 :=
  (generateBlocks_depth_bound ⟨0, 0, 800, 600⟩ 0 0 42).2 (⟨0, 0, 800, 600⟩, 0)
    (by simp [generateBlocksD, generateBlocksDGo])

/-! ## RNG-draw accounting of the partitioner's terminals (C2, C4, C10) -/

/-- C4: with `depth < maxDepth`, a block with both dimensions below the
minimum is returned unchanged with the RNG state untouched (the `||`
short-circuits before `rng.next()`), and when the small-block disjunct is
false and the probabilistic stop fires (`next() < 0.2` with `depth > 0`), the
block is returned having consumed exactly one RNG draw. -/
theorem generateBlocks_early_stop :
    (∀ (b : Block) (depth maxDepth s : Nat), depth < maxDepth →
        b.width < MIN_BLOCK_SIZE → b.height < MIN_BLOCK_SIZE →
        generateBlocks b depth maxDepth s = ([b], s)) ∧
    (∀ (b : Block) (depth maxDepth s : Nat), depth < maxDepth →
        ¬(b.width < MIN_BLOCK_SIZE ∧ b.height < MIN_BLOCK_SIZE) →
        nextVal s < 1/5 → depth > 0 →
        generateBlocks b depth maxDepth s = ([b], stepSeed s)) := by
  constructor
  · intro b depth maxDepth s hd hw hh
    obtain ⟨fuel, hf⟩ : ∃ f, maxDepth - depth = f + 1 := ⟨maxDepth - depth - 1, by omega⟩
    rw [generateBlocks, hf]
    simp only [generateBlocksGo]
    rw [if_pos ⟨hw, hh⟩]
  · intro b depth maxDepth s hd hsmall hstop hdpos
    obtain ⟨fuel, hf⟩ : ∃ f, maxDepth - depth = f + 1 := ⟨maxDepth - depth - 1, by omega⟩
    rw [generateBlocks, hf]
    simp only [generateBlocksGo]
    rw [if_neg hsmall, if_pos ⟨hstop, hdpos⟩]

/-- Witness for C4: a `100 × 100` block at depth `0 < 1` consumes no draw;
a `200 × 100` block at depth `1 < 2` from state `20` (where
`next() = 2037/233280 < 0.2`) stops after exactly one draw. -/
theorem generateBlocks_early_stop_witness :
    generateBlocks ⟨0, 0, 100, 100⟩ 0 1 42 = ([⟨0, 0, 100, 100⟩], 42) ∧
    generateBlocks ⟨0, 0, 200, 100⟩ 1 2 20 = ([⟨0, 0, 200, 100⟩], stepSeed 20) := by
  constructor
  · exact generateBlocks_early_stop.1 ⟨0, 0, 100, 100⟩ 0 1 42 (by omega)
      (by norm_num [MIN_BLOCK_SIZE]) (by norm_num [MIN_BLOCK_SIZE])
  · exact generateBlocks_early_stop.2 ⟨0, 0, 200, 100⟩ 1 2 20 (by omega)
      (by norm_num [MIN_BLOCK_SIZE]) (by norm_num [nextVal, stepSeed, lcgModulus])
      (by omega)

/-- C2 (counterexample): at the exactly square block `200 × 200` — both
dimensions above the minimum — with `depth = 1 < maxDepth = 2` and the
probabilistic stop not taken (`next() ≥ 0.2` from state `42`), the partitioner
returns the block **unsplit** and consumes only the single stop-check draw: no
additional RNG value is drawn and no split happens, contrary to the claim. -/
theorem generateBlocks_square_counterexample :
    ¬ (nextVal 42 < 1/5) ∧
    generateBlocks ⟨0, 0, 200, 200⟩ 1 2 42 = ([⟨0, 0, 200, 200⟩], stepSeed 42) := by
  constructor
  · norm_num [nextVal, stepSeed, lcgModulus]
  · norm_num [generateBlocks, generateBlocksGo, nextVal, stepSeed, lcgModulus, MIN_BLOCK_SIZE]

/-- C2 (amended): an exactly square block with both dimensions above the
minimum, at `depth < maxDepth` with the probabilistic early stop not taken, is
returned unsplit; only the stop-check draw is consumed and no axis tie-break
draw exists. -/
theorem generateBlocks_square_unsplit (b : Block) (depth maxDepth s : Nat)
    (hsq : b.width = b.height) (hmin : MIN_BLOCK_SIZE < b.width)
    (hd : depth < maxDepth) (hstop : ¬(nextVal s < 1/5 ∧ depth > 0)) :
    generateBlocks b depth maxDepth s = ([b], stepSeed s) := by
  obtain ⟨fuel, hf⟩ : ∃ f, maxDepth - depth = f + 1 := ⟨maxDepth - depth - 1, by omega⟩
  rw [generateBlocks, hf]
  simp only [generateBlocksGo]
  rw [if_neg (by rintro ⟨h1, _⟩; linarith)]
  rw [if_neg hstop]
  rw [if_neg (by rintro ⟨hgt, _⟩; rw [hsq] at hgt; exact lt_irrefl _ hgt)]
  rw [if_neg (by rintro ⟨hgt, _⟩; rw [hsq] at hgt; exact lt_irrefl _ hgt)]

/-- Witness for the amended C2 at the square `200 × 200`, depth `0 < 1`,
state `42`. -/
theorem generateBlocks_square_unsplit_witness :
    generateBlocks ⟨0, 0, 200, 200⟩ 0 1 42 = ([⟨0, 0, 200, 200⟩], stepSeed 42) :=
  generateBlocks_square_unsplit ⟨0, 0, 200, 200⟩ 0 1 42 rfl
    (by norm_num [MIN_BLOCK_SIZE]) (by omega) (by simp)

/-- C10: at `depth = 0` with `maxDepth > 0` and not both dimensions below the
minimum, the stop-check draw is always consumed (it is the left operand of the
`&&`), yet the stop can never fire (`depth > 0` is false): the call always
proceeds to the split logic with the RNG advanced by exactly one draw. -/
theorem generateBlocks_root_draw (b : Block) (maxDepth s : Nat)
    (hd : 0 < maxDepth) (hsmall : ¬(b.width < MIN_BLOCK_SIZE ∧ b.height < MIN_BLOCK_SIZE)) :
    generateBlocks b 0 maxDepth s = splitStep b 0 maxDepth (stepSeed s) := by
  obtain ⟨fuel, hf⟩ : ∃ f, maxDepth - 0 = f + 1 := ⟨maxDepth - 1, by omega⟩
  rw [generateBlocks, hf]
  simp only [generateBlocksGo]
  rw [if_neg hsmall, if_neg (by simp)]
  have h1 : maxDepth - (0 + 1) = fuel := by omega
  simp only [splitStep, generateBlocks, h1]

/-- Witness for C10 at the `800 × 600` root block, `maxDepth = 1`, state `42`. -/
theorem generateBlocks_root_draw_witness :
    generateBlocks ⟨0, 0, 800, 600⟩ 0 1 42 = splitStep ⟨0, 0, 800, 600⟩ 0 1 (stepSeed 42) :=
  generateBlocks_root_draw ⟨0, 0, 800, 600⟩ 1 42 (by omega) (by norm_num [MIN_BLOCK_SIZE])

/-! ## Composition renderer (`drawComposition`) -/

/-- The palette `PRIMARY_COLORS = ["#FF0000", "#0000FF", "#FFFF00"]` (red, blue, yellow). -/
def PRIMARY_COLORS : List String := ["#FF0000", "#0000FF", "#FFFF00"]

/-- The constant `BACKGROUND_COLOR = "#FFFFFF"` (white). -/
def BACKGROUND_COLOR : String := "#FFFFFF"

/-- The fill loop of `drawComposition`: for each block in list order, one draw
decides colored-vs-background; a colored block consumes a second draw to index
the palette.  The canvas side effect is modelled as the list of fill colors in
block order, paired with the final RNG state (the stroke pass after the loop
consumes no RNG). -/
def drawComposition : List Block → ℚ → Nat → List String × Nat
  | [], _, s => ([], s)
  | _ :: bs, colorChance, s =>
    if nextVal s < colorChance then
      let idx : Nat := (⌊nextVal (stepSeed s) * (PRIMARY_COLORS.length : ℚ)⌋).toNat
      let rest := drawComposition bs colorChance (stepSeed (stepSeed s))
      (PRIMARY_COLORS.getD idx "" :: rest.1, rest.2)
    else
      let rest := drawComposition bs colorChance (stepSeed s)
      (BACKGROUND_COLOR :: rest.1, rest.2)

/-- The colored/uncolored decision sequence the spec describes: for each of
`n` blocks, the first draw compared against `colorChance`, with the RNG
advanced two draws for a colored block and one draw otherwise. -/
def coloredFlags : Nat → ℚ → Nat → List Bool
  | 0, _, _ => []
  | n + 1, colorChance, s =>
    if nextVal s < colorChance then
      true :: coloredFlags n colorChance (stepSeed (stepSeed s))
    else
      false :: coloredFlags n colorChance (stepSeed s)

/-- Total number of RNG draws for a decision sequence: two per colored block,
one per uncolored block. -/
def flagDraws (l : List Bool) : Nat := (l.map fun f => if f then 2 else 1).sum

theorem colorIndex_lt (s : Nat) :
    (⌊nextVal s * (PRIMARY_COLORS.length : ℚ)⌋).toNat < PRIMARY_COLORS.length := by
  have h0 := nextVal_nonneg s
  have h1 := nextVal_lt_one s
  have hlen : ((PRIMARY_COLORS.length : ℚ)) = 3 := by norm_num [PRIMARY_COLORS]
  rw [hlen]
  have hnn : (0 : ℤ) ≤ ⌊nextVal s * 3⌋ := Int.floor_nonneg.mpr (by positivity)
  have hlt : ⌊nextVal s * 3⌋ < 3 := by
    rw [Int.floor_lt]
    push_cast
    linarith
  have : PRIMARY_COLORS.length = 3 := by norm_num [PRIMARY_COLORS]
  omega

theorem PRIMARY_COLORS_getD_mem (i : Nat) (h : i < PRIMARY_COLORS.length) :
    PRIMARY_COLORS.getD i "" ∈ PRIMARY_COLORS := by
  rw [List.getD_eq_getElem _ _ h]
  exact List.getElem_mem h

/-- C5: the renderer processes blocks in list order; each block whose first
draw is below `colorChance` consumes two draws and is filled with the palette
entry selected by the second draw, each other block consumes one draw and is
filled with the white background.  The final RNG state advances by exactly the
weighted draw count, and every emitted fill color is a palette entry or the
background. -/
theorem drawComposition_rng_contract (blocks : List Block) (colorChance : ℚ) (s : Nat) :
    (drawComposition blocks colorChance s).2 =
        stepSeed^[flagDraws (coloredFlags blocks.length colorChance s)] s ∧
    (drawComposition blocks colorChance s).1.length = blocks.length ∧
    (∀ i, i < blocks.length →
      (drawComposition blocks colorChance s).1.getD i "" =
        if nextVal (stepSeed^[flagDraws ((coloredFlags blocks.length colorChance s).take i)] s)
            < colorChance then
          PRIMARY_COLORS.getD
            (⌊nextVal (stepSeed
                (stepSeed^[flagDraws
                  ((coloredFlags blocks.length colorChance s).take i)] s)) *
              (PRIMARY_COLORS.length : ℚ)⌋).toNat ""
        else BACKGROUND_COLOR) ∧
    ∀ c ∈ (drawComposition blocks colorChance s).1,
      c ∈ PRIMARY_COLORS ∨ c = BACKGROUND_COLOR := by
  induction blocks generalizing s with
  | nil =>
    refine ⟨?_, ?_, ?_, ?_⟩ <;> simp [drawComposition, coloredFlags, flagDraws]
  | cons b bs ih =>
    by_cases hc : nextVal s < colorChance
    · obtain ⟨ih1, ih2, ih3, ih4⟩ := ih (stepSeed (stepSeed s))
      have hfl : coloredFlags (b :: bs).length colorChance s =
          true :: coloredFlags bs.length colorChance (stepSeed (stepSeed s)) := by
        simp [coloredFlags, hc]
      have hdc : drawComposition (b :: bs) colorChance s =
          (PRIMARY_COLORS.getD
              ((⌊nextVal (stepSeed s) * (PRIMARY_COLORS.length : ℚ)⌋).toNat) "" ::
            (drawComposition bs colorChance (stepSeed (stepSeed s))).1,
           (drawComposition bs colorChance (stepSeed (stepSeed s))).2) := by
        simp [drawComposition, hc]
      have hsum : ∀ l : List Bool, flagDraws (true :: l) = flagDraws l + 2 := by
        intro l
        simp [flagDraws, Nat.add_comm]
      refine ⟨?_, ?_, ?_, ?_⟩
      · rw [hdc, hfl, hsum, Function.iterate_add_apply]
        exact ih1
      · rw [hdc]
        simp [ih2]
      · intro i hi
        rw [hdc, hfl]
        cases i with
        | zero =>
          simp only [List.getD_cons_zero, List.take_zero, flagDraws, List.map_nil,
            List.sum_nil, Function.iterate_zero, id_eq]
          rw [if_pos hc]
        | succ j =>
          simp only [List.getD_cons_succ, List.take_succ_cons, hsum,
            Function.iterate_add_apply]
          exact ih3 j (by simpa using hi)
      · intro c hcmem
        rw [hdc] at hcmem
        rcases List.mem_cons.mp hcmem with hceq | hcmem
        · subst hceq
          exact Or.inl (PRIMARY_COLORS_getD_mem _ (colorIndex_lt _))
        · exact ih4 c hcmem
    · obtain ⟨ih1, ih2, ih3, ih4⟩ := ih (stepSeed s)
      have hfl : coloredFlags (b :: bs).length colorChance s =
          false :: coloredFlags bs.length colorChance (stepSeed s) := by
        simp [coloredFlags, hc]
      have hdc : drawComposition (b :: bs) colorChance s =
          (BACKGROUND_COLOR :: (drawComposition bs colorChance (stepSeed s)).1,
           (drawComposition bs colorChance (stepSeed s)).2) := by
        simp [drawComposition, hc]
      have hsum : ∀ l : List Bool, flagDraws (false :: l) = flagDraws l + 1 := by
        intro l
        simp [flagDraws, Nat.add_comm]
      refine ⟨?_, ?_, ?_, ?_⟩
      · rw [hdc, hfl, hsum, Function.iterate_add_apply]
        exact ih1
      · rw [hdc]
        simp [ih2]
      · intro i hi
        rw [hdc, hfl]
        cases i with
        | zero =>
          simp only [List.getD_cons_zero, List.take_zero, flagDraws, List.map_nil,
            List.sum_nil, Function.iterate_zero, id_eq]
          rw [if_neg hc]
        | succ j =>
          simp only [List.getD_cons_succ, List.take_succ_cons, hsum,
            Function.iterate_add_apply]
          exact ih3 j (by simpa using hi)
      · intro c hcmem
        rw [hdc] at hcmem
        rcases List.mem_cons.mp hcmem with hceq | hcmem
        · subst hceq
          exact Or.inr rfl
        · exact ih4 c hcmem

/-- Witness for C5 on a concrete two-block list. -/
theorem drawComposition_rng_contract_witness :
    (drawComposition [⟨0, 0, 100, 100⟩, ⟨100, 0, 100, 100⟩] (3/10) 42).1.getD 0 "" =
      if nextVal (stepSeed^[flagDraws
          ((coloredFlags 2 (3/10) 42).take 0)] 42) < 3/10 then
        PRIMARY_COLORS.getD
          (⌊nextVal (stepSeed (stepSeed^[flagDraws
              ((coloredFlags 2 (3/10) 42).take 0)] 42)) *
            (PRIMARY_COLORS.length : ℚ)⌋).toNat ""
      else BACKGROUND_COLOR :=
  (drawComposition_rng_contract [⟨0, 0, 100, 100⟩, ⟨100, 0, 100, 100⟩] (3/10) 42).2.2.1 0
    (by norm_num)

/-! ## Broadcast server (`docs/dist/bundle.js`) -/

/-- One entry of the `connectedClients` map: `{id, connectedAt}`. -/
structure ClientSession where
  id : String
  connectedAt : ℤ
deriving DecidableEq, Repr

/-- The server's mutable state relevant to a scheduler tick: the
`connectedClients` map, keyed by socket id. -/
structure ServerState where
  connectedClients : List (String × ClientSession)
deriving DecidableEq, Repr

/-- The constant `GENERATION_INTERVAL = 5000` ms. -/
def GENERATION_INTERVAL : ℤ := 5000

/-- The `generate` event payload (`shared/types.ts`). -/
structure GenerationEvent where
  timestamp : ℤ
  seed : ℤ
  depth : ℤ
  colorChance : ℚ
  lineWeight : ℤ
  duration : ℤ
deriving DecidableEq, Repr

/-- The `audio` event payload (`shared/types.ts`). -/
structure AudioEvent where
  timestamp : ℤ
  frequencies : List ℚ
  duration : ℚ
deriving DecidableEq, Repr

/-- A message broadcast to every connected session. -/
inductive ServerMsg : Type
  | generate (ev : GenerationEvent)
  | audio (ev : AudioEvent)
deriving DecidableEq, Repr

/-- Output of `generateRandomParams` (seed, width and height omitted). -/
structure RandomParams where
  depth : ℤ
  colorChance : ℚ
  lineWeight : ℤ
deriving DecidableEq, Repr

/-- The function `generateRandomParams`: depth `⌊r·3⌋+4`, colorChance `r·0.2+0.2`,
lineWeight `⌊r·19⌋+12`, with the three `Math.random()` values passed
explicitly. -/
def generateRandomParams (r1 r2 r3 : ℚ) : RandomParams :=
  ⟨⌊r1 * 3⌋ + 4, r2 * (1/5) + 1/5, ⌊r3 * 19⌋ + 12⟩

/-- The helper `getRandomFrequency`: `Math.random() * (880 - 220) + 220`. -/
def getRandomFrequency (r : ℚ) : ℚ := r * (880 - 220) + 220

/-- The function `generateAndBroadcast`: one scheduler tick.  Ambient nondeterminism
(`Date.now()`, the five `Math.random()` draws) is passed in explicitly; the
result is the server state after the tick together with the list of broadcast
messages, in emission order. -/
def generateAndBroadcast (st : ServerState) (now : ℤ) (r1 r2 r3 rc rf1 rf2 : ℚ) :
    ServerState × List ServerMsg :=
  if st.connectedClients.length = 0 then (st, [])
  else
    let seed := now
    let params := generateRandomParams r1 r2 r3
    let generationEvent : GenerationEvent :=
      ⟨now, seed, params.depth, params.colorChance, params.lineWeight, GENERATION_INTERVAL⟩
    let frequencies :=
      if rc > 1/2 then [getRandomFrequency rf1, getRandomFrequency rf2]
      else [getRandomFrequency rf1]
    let audioEvent : AudioEvent := ⟨now, frequencies, 5⟩
    (st, [.generate generationEvent, .audio audioEvent])

/-- C6: a scheduler tick with zero connected clients broadcasts nothing — no
generate event and no audio event — and leaves the server state unchanged. -/
theorem generateAndBroadcast_idle_skip (st : ServerState) (now : ℤ)
    (r1 r2 r3 rc rf1 rf2 : ℚ) (h : st.connectedClients.length = 0) :
    generateAndBroadcast st now r1 r2 r3 rc rf1 rf2 = (st, []) := by
  rw [generateAndBroadcast, if_pos h]

/-- Witness for C6: the empty registry. -/
theorem generateAndBroadcast_idle_skip_witness :
    generateAndBroadcast ⟨[]⟩ 1700000000000 0 0 0 0 0 0 = (⟨[]⟩, []) :=
  generateAndBroadcast_idle_skip ⟨[]⟩ 1700000000000 0 0 0 0 0 0 rfl

/-! ## Health endpoint (`GET /health`) -/

/-- A JSON value, as far as the health response needs. -/
inductive JValue : Type
  | str (s : String)
  | num (q : ℚ)
deriving DecidableEq, Repr

/-- The `/health` handler body:
`res.json({status: "ok", clients: connectedClients.size, uptime: process.uptime()})`,
with the process uptime (in seconds) passed explicitly.  The response object
is modelled as its ordered field list. -/
def healthHandler (st : ServerState) (uptime : ℚ) : List (String × JValue) :=
  [("status", .str "ok"),
   ("clients", .num (st.connectedClients.length : ℚ)),
   ("uptime", .num uptime)]

/-- C7 (counterexample): the health response has no `uptimeSeconds` field; its
fields are `status`, `clients` and `uptime`. -/
theorem healthHandler_no_uptimeSeconds :
    "uptimeSeconds" ∉ (healthHandler ⟨[]⟩ 0).map Prod.fst ∧
    (healthHandler ⟨[]⟩ 0).map Prod.fst = ["status", "clients", "uptime"] := by
  constructor
  · decide
  · rfl

/-- C7 (amended): for every client count and uptime, the health response is an
object with exactly the fields `status = "ok"`, `clients = ` the connected
client count, and `uptime = ` the process uptime in seconds. -/
theorem healthHandler_fields (st : ServerState) (uptime : ℚ) :
    (healthHandler st uptime).map Prod.fst = ["status", "clients", "uptime"] ∧
    (healthHandler st uptime).lookup "status" = some (.str "ok") ∧
    (healthHandler st uptime).lookup "clients" =
      some (.num (st.connectedClients.length : ℚ)) ∧
    (healthHandler st uptime).lookup "uptime" = some (.num uptime) := by
  refine ⟨rfl, rfl, ?_, ?_⟩ <;> simp [healthHandler, List.lookup]

/-! ## Clock synchronization (`src/web/socket.ts`) -/

/-- The `sync` event payload: `{serverTime, clientTime}`. -/
structure SyncEvent where
  serverTime : ℚ
  clientTime : ℚ
deriving DecidableEq, Repr

/-- The client state touched by the sync handler: its clock-offset estimate. -/
structure MondrianSocketClient where
  clockOffset : ℚ
deriving DecidableEq, Repr

/-- The client's `sync` handler: `rtt = now - clientTime;`
`clockOffset = serverTime - (clientTime + rtt / 2)`. -/
def handleSync (client : MondrianSocketClient) (ev : SyncEvent) (now : ℚ) :
    MondrianSocketClient :=
  let rtt := now - ev.clientTime
  { clockOffset := ev.serverTime - (ev.clientTime + rtt / 2) }

/-- C8: on every sync event received at local time `now`, the client's offset
becomes `serverTime - (clientTime + (now - clientTime)/2)` (with
`rtt = now - clientTime`), and the new state is independent of the previous
offset estimate — each sample replaces the last, with no smoothing. -/
theorem handleSync_offset (client : MondrianSocketClient) (ev : SyncEvent) (now : ℚ) :
    (handleSync client ev now).clockOffset =
        ev.serverTime - (ev.clientTime + (now - ev.clientTime) / 2) ∧
    ∀ other : MondrianSocketClient, handleSync client ev now = handleSync other ev now :=
  ⟨rfl, fun _ => rfl⟩

end Mondrian
